/-
Verification of the jewelry-shop accounting application's ledger/balance
engine, voucher row arithmetic, balance aggregation and voucher creation.

Shallow embedding notes:
* JavaScript numbers are modelled as exact rationals (ℚ): the claims under
  scrutiny are the algebraic relations of the computation, which the source
  expresses over IEEE doubles but which are stated (and only hold exactly)
  over the rational arithmetic that the formulas denote.
* Transaction dates are modelled as natural numbers (day index).  The ledger
  pages store `toLocaleDateString()` strings and re-parse them when filtering,
  so dates are day-granular throughout; a ℕ date models that day value.
* `Array.prototype.sort` with the comparator `(a, b) => a.date - b.date` is a
  stable sort ascending by date; it is modelled by `List.insertionSort` on
  `·.date ≤ ·.date`, which is stable.  No claim below depends on the relative
  order of same-date vouchers (the source leaves that to the backing store).
* JavaScript truthiness on numbers (`x ? _ : _`) is falsity exactly at 0 (and
  NaN, which the exact model has no counterpart of), so a truthiness test on
  a number field is modelled as `≠ 0`, and on an optional field as
  "present and ≠ 0".
-/
import Mathlib

namespace Accounts

/-- Voucher type enum: `"INV"` (invoice) or `"REC"` (receipt). -/
inductive VoucherType where
  | INV : VoucherType
  | REC : VoucherType
deriving DecidableEq, Repr

/-- A customer record (`interface Customer` in the pages); only the
identity field matters to the ledger computations. -/
structure Customer where
  id : ℕ
deriving DecidableEq, Repr

/-- A voucher as consumed by the ledger pages (`interface Voucher`):
one dated transaction against a customer, with denormalized totals.
`rows` models the parsed row descriptions (`JSON.parse(voucher.rows)`
followed by `rows.map(row => row.description)` is all the ledger uses). -/
structure Voucher where
  id : ℕ
  voucherType : VoucherType
  date : ℕ
  totalNet : ℚ
  totalKWD : ℚ
  accountId : ℕ
  rows : List String
deriving DecidableEq, Repr

/-- A derived ledger line (`interface LedgerEntry` in `pages/ledger/[id].tsx`),
annotated with the running balances after this transaction. -/
structure LedgerEntry where
  date : ℕ
  voucherId : ℕ
  type : VoucherType
  description : String
  goldDebit : ℚ
  goldCredit : ℚ
  goldBalance : ℚ
  kwdDebit : ℚ
  kwdCredit : ℚ
  kwdBalance : ℚ
deriving DecidableEq, Repr

/-- The date comparison used by every `.sort((a, b) => new Date(a.date) - new Date(b.date))`. -/
def dateLe (a b : Voucher) : Prop := a.date ≤ b.date

instance : DecidableRel dateLe := fun a b => inferInstanceAs (Decidable (a.date ≤ b.date))

instance : IsTotal Voucher dateLe := ⟨fun a b => Nat.le_total a.date b.date⟩

instance : IsTrans Voucher dateLe := ⟨fun _ _ _ h h' => Nat.le_trans h h'⟩

/-- Model of `[...vouchers].sort((a, b) => new Date(a.date).getTime() - new Date(b.date).getTime())`:
stable ascending sort by transaction date. -/
def sortVouchers (vs : List Voucher) : List Voucher :=
  List.insertionSort dateLe vs

/-- The concatenated description of a voucher:
`rows.map(row => row.description).join(", ")` prefixed with the type label. -/
def voucherDescription (v : Voucher) : String :=
  match v.voucherType with
  | .INV => "Invoice - " ++ String.intercalate ", " v.rows
  | .REC => "Receipt - " ++ String.intercalate ", " v.rows

/-- The traversal body of `fetchData` in `pages/ledger/[id].tsx` (lines
116-155): walk the date-sorted vouchers carrying the two running
accumulators (`runningGoldBalance`, `runningKWDBalance`), emitting one
entry per voucher with post-update balances. -/
def processVouchers (g k : ℚ) : List Voucher → List LedgerEntry
  | [] => []
  | v :: rest =>
    match v.voucherType with
    | .INV =>
      let g' := g + v.totalNet
      let k' := k + v.totalKWD
      { date := v.date, voucherId := v.id, type := .INV,
        description := voucherDescription v,
        goldDebit := v.totalNet, goldCredit := 0, goldBalance := g',
        kwdDebit := v.totalKWD, kwdCredit := 0, kwdBalance := k' }
        :: processVouchers g' k' rest
    | .REC =>
      let g' := g - v.totalNet
      let k' := k - v.totalKWD
      { date := v.date, voucherId := v.id, type := .REC,
        description := voucherDescription v,
        goldDebit := 0, goldCredit := v.totalNet, goldBalance := g',
        kwdDebit := 0, kwdCredit := v.totalKWD, kwdBalance := k' }
        :: processVouchers g' k' rest

/-- The per-customer ledger build of `pages/ledger/[id].tsx` lines 106-155:
sort by date, then traverse with both accumulators starting at 0. -/
def buildLedger (vs : List Voucher) : List LedgerEntry :=
  processVouchers 0 0 (sortVouchers vs)

/-- Customer lookup in `pages/full-ledger.tsx`: `customerMap.get(voucher.accountId)`
where the map is keyed by customer id. -/
def lookupCustomer (cs : List Customer) (accountId : ℕ) : Option Customer :=
  cs.find? (fun c => c.id = accountId)

/-- The traversal body of `fetchFullLedger` in `pages/full-ledger.tsx` (lines
112-159): identical to the per-customer traversal except that a voucher whose
`accountId` matches no known customer is skipped (`console.warn` + `return`)
before any balance update or entry emission. -/
def processVouchersFull (cs : List Customer) (g k : ℚ) : List Voucher → List LedgerEntry
  | [] => []
  | v :: rest =>
    match lookupCustomer cs v.accountId with
    | none => processVouchersFull cs g k rest
    | some _ =>
      match v.voucherType with
      | .INV =>
        let g' := g + v.totalNet
        let k' := k + v.totalKWD
        { date := v.date, voucherId := v.id, type := .INV,
          description := voucherDescription v,
          goldDebit := v.totalNet, goldCredit := 0, goldBalance := g',
          kwdDebit := v.totalKWD, kwdCredit := 0, kwdBalance := k' }
          :: processVouchersFull cs g' k' rest
      | .REC =>
        let g' := g - v.totalNet
        let k' := k - v.totalKWD
        { date := v.date, voucherId := v.id, type := .REC,
          description := voucherDescription v,
          goldDebit := 0, goldCredit := v.totalNet, goldBalance := g',
          kwdDebit := 0, kwdCredit := v.totalKWD, kwdBalance := k' }
          :: processVouchersFull cs g' k' rest

/-- The system-wide ledger build of `pages/full-ledger.tsx` lines 102-159. -/
def buildFullLedger (cs : List Customer) (vs : List Voucher) : List LedgerEntry :=
  processVouchersFull cs 0 0 (sortVouchers vs)

/-- Date-range test of the filter in `pages/ledger/[id].tsx` lines 174-184:
`(!startDate || entryDate >= startDate) && (!endDate || entryDate <= endDate)`. -/
def inDateRange (rangeStart rangeEnd : Option ℕ) (d : ℕ) : Bool :=
  (match rangeStart with
   | none => true
   | some s => decide (s ≤ d)) &&
  (match rangeEnd with
   | none => true
   | some t => decide (d ≤ t))

/-- Model of `filteredLedgerEntries`: the in-range entries, in original order. -/
def filterEntries (all : List LedgerEntry) (rangeStart rangeEnd : Option ℕ) :
    List LedgerEntry :=
  all.filter (fun e => inDateRange rangeStart rangeEnd e.date)

/-- Model of `calculateOpeningBalance` (`pages/ledger/[id].tsx` lines 190-210): (0,0)
when `rangeStart` is unset or the entry list is empty; otherwise scan from
the end for the first entry dated strictly before `rangeStart` (modelled by
`find?` on the reversed list, which visits entries last-to-first). -/
def calculateOpeningBalance (all : List LedgerEntry) (rangeStart : Option ℕ) :
    ℚ × ℚ :=
  match rangeStart with
  | none => (0, 0)
  | some s =>
    if all.isEmpty then (0, 0)
    else
      match all.reverse.find? (fun e => decide (e.date < s)) with
      | some e => (e.goldBalance, e.kwdBalance)
      | none => (0, 0)

/-- Model of `calculateClosingBalance` (`pages/ledger/[id].tsx` lines 213-223): the
opening balance when the filtered range is empty, otherwise the balances of
the last filtered entry. -/
def calculateClosingBalance (all : List LedgerEntry)
    (rangeStart rangeEnd : Option ℕ) : ℚ × ℚ :=
  match (filterEntries all rangeStart rangeEnd).getLast? with
  | none => calculateOpeningBalance all rangeStart
  | some e => (e.goldBalance, e.kwdBalance)

/-- A date-bounded report: opening balance, filtered entries, closing balance
as composed by the ledger page. -/
structure BoundedReport where
  opening : ℚ × ℚ
  entries : List LedgerEntry
  closing : ℚ × ℚ
deriving DecidableEq, Repr

/-- The bounded report assembled by `pages/ledger/[id].tsx` from
`calculateOpeningBalance`, the date filter, and `calculateClosingBalance`. -/
def boundedReport (all : List LedgerEntry) (rangeStart rangeEnd : Option ℕ) :
    BoundedReport :=
  { opening := calculateOpeningBalance all rangeStart,
    entries := filterEntries all rangeStart rangeEnd,
    closing := calculateClosingBalance all rangeStart rangeEnd }

/-- Model of `totalGoldDebit` (`pages/ledger/[id].tsx` line 262):
`filteredLedgerEntries.reduce((sum, entry) => sum + entry.goldDebit, 0)`. -/
def totalGoldDebit (l : List LedgerEntry) : ℚ :=
  l.foldl (fun s e => s + e.goldDebit) 0

/-- Model of `totalGoldCredit` (line 263). -/
def totalGoldCredit (l : List LedgerEntry) : ℚ :=
  l.foldl (fun s e => s + e.goldCredit) 0

/-- Model of `totalKWDDebit` (line 264). -/
def totalKWDDebit (l : List LedgerEntry) : ℚ :=
  l.foldl (fun s e => s + e.kwdDebit) 0

/-- Model of `totalKWDCredit` (line 265). -/
def totalKWDCredit (l : List LedgerEntry) : ℚ :=
  l.foldl (fun s e => s + e.kwdCredit) 0

/-- A row of the voucher creation form (`interface InvoiceRow` in
`pages/voucher/create.tsx`): `weight`, `purity`, `netWeight`, `kwd` are plain
number fields (an empty input coerces to 0 via `Number("")`), while
`makingCharges`, `discountPercent` and `weightAfterDiscount` are optional. -/
structure CreateRow where
  description : String
  weight : ℚ
  purity : ℚ
  makingCharges : Option ℚ
  discountPercent : Option ℚ
  netWeight : ℚ
  weightAfterDiscount : Option ℚ
  kwd : ℚ
deriving DecidableEq, Repr

/-- Truthiness of an optional number field: present and nonzero. -/
def truthyOpt (x : Option ℚ) : Bool :=
  match x with
  | none => false
  | some v => decide (v ≠ 0)

/-- The "Live calculations" block of `handleRowChange`
(`pages/voucher/create.tsx` lines 58-70), re-deriving a row's computed
fields after an edit.
Invoice: `netWeight = weight && purity ? weight * purity / 999 : 0`,
`kwd = weight && makingCharges ? weight * makingCharges : 0`.
Receipt: `weightAfterDiscount = weight && discountPercent !== undefined ?
weight * (1 - discountPercent / 100) : 0` (a presence test, not a
truthiness test, on `discountPercent`),
`netWeight = weightAfterDiscount && purity ? weightAfterDiscount * purity / 999 : 0`,
and `kwd` is left as manually entered. -/
def recalcRow (voucherType : VoucherType) (row : CreateRow) : CreateRow :=
  match voucherType with
  | .INV =>
    { row with
      netWeight :=
        if row.weight ≠ 0 ∧ row.purity ≠ 0 then row.weight * row.purity / 999 else 0,
      kwd :=
        if row.weight ≠ 0 ∧ truthyOpt row.makingCharges = true then
          row.weight * row.makingCharges.getD 0
        else 0 }
  | .REC =>
    let wad : ℚ :=
      if row.weight ≠ 0 ∧ row.discountPercent ≠ none then
        row.weight * (1 - row.discountPercent.getD 0 / 100)
      else 0
    { row with
      weightAfterDiscount := some wad,
      netWeight :=
        if wad ≠ 0 ∧ row.purity ≠ 0 then wad * row.purity / 999 else 0 }

/-- A per-customer balance summary (`interface CustomerBalance` in
`pages/balances.tsx`). -/
structure CustomerBalance where
  goldBalance : ℚ
  kwdBalance : ℚ
  lastTransactionDate : Option ℕ
  voucherCount : ℕ
deriving DecidableEq, Repr

/-- The accumulation loop of `fetchBalances` (`pages/balances.tsx`):
`forEach` over the date-sorted vouchers, adding totals for `"INV"` and
subtracting them for `"REC"` (the two cases of the enum). -/
def accumulateBalances (gk : ℚ × ℚ) : List Voucher → ℚ × ℚ
  | [] => gk
  | v :: rest =>
    match v.voucherType with
    | .INV => accumulateBalances (gk.1 + v.totalNet, gk.2 + v.totalKWD) rest
    | .REC => accumulateBalances (gk.1 - v.totalNet, gk.2 - v.totalKWD) rest

/-- The per-customer summary computation of `fetchBalances`
(`pages/balances.tsx` lines 105-141): balances start at 0 and
`lastTransactionDate` at null; when the voucher list is nonempty, sort by
date, read the last sorted voucher's date, and accumulate the running
balances over the sorted list; the count is the voucher count. -/
def summarize (vs : List Voucher) : CustomerBalance :=
  if vs.isEmpty then
    { goldBalance := 0, kwdBalance := 0, lastTransactionDate := none,
      voucherCount := vs.length }
  else
    let sorted := sortVouchers vs
    let gk := accumulateBalances (0, 0) sorted
    { goldBalance := gk.1, kwdBalance := gk.2,
      lastTransactionDate := sorted.getLast?.map (·.date),
      voucherCount := vs.length }

/-- Maximum of the voucher dates (0 on the empty list). -/
def maxVoucherDate (vs : List Voucher) : ℕ :=
  (vs.map (·.date)).foldr max 0

/-- Modelled from the spec: the Balance Aggregator contract (§4.3) phrased
over the Ledger Engine, used as the refinement target for the aggregation
loop — on an empty voucher list, balances (0,0), count 0, null last
activity; otherwise the last `buildLedger` entry's running balances, the
voucher count, and the maximum voucher date. -/
def summarizeViaLedger (vs : List Voucher) : CustomerBalance :=
  if vs.isEmpty then
    { goldBalance := 0, kwdBalance := 0, lastTransactionDate := none,
      voucherCount := 0 }
  else
    { goldBalance := ((buildLedger vs).getLast?).elim 0 (·.goldBalance),
      kwdBalance := ((buildLedger vs).getLast?).elim 0 (·.kwdBalance),
      lastTransactionDate := some (maxVoucherDate vs),
      voucherCount := vs.length }

/-- A row as it arrives in the create-voucher request body.  The handler in
`pages/api/voucher/create.ts` performs no runtime checks, so every field of
the untrusted payload is modelled as possibly absent. -/
structure RowInput where
  description : Option String
  weight : Option ℚ
  purity : Option ℚ
  makingCharges : Option ℚ
  discountPercent : Option ℚ
  netWeight : Option ℚ
  kwd : Option ℚ
deriving DecidableEq, Repr

/-- The create-voucher request body (`VoucherBody`); `voucherType` is kept
as the raw string the client sent, since the handler never inspects it. -/
structure VoucherBodyInput where
  accountId : ℕ
  voucherType : String
  rows : List RowInput
  totalNet : ℚ
  totalKWD : ℚ
  date : ℕ
deriving DecidableEq, Repr

/-- What `prisma.voucher.create` is handed: the body fields as given, with
`rows` serialized (kept structured here). -/
structure StoredVoucher where
  accountId : ℕ
  voucherType : String
  date : ℕ
  rows : List RowInput
  totalNet : ℚ
  totalKWD : ℚ
deriving DecidableEq, Repr

/-- Outcome of the create-voucher API call. -/
inductive CreateResult where
  | methodNotAllowed : CreateResult
  | success : StoredVoucher → CreateResult
  | serverError : String → CreateResult
deriving DecidableEq, Repr

/-- The handler of `pages/api/voucher/create.ts` (and its typed duplicate):
reject non-POST, otherwise destructure the body and store it as-is.  The
database create is modelled as total — the repository contains no schema
constraint or validation code on this path, and `rows` is stored as an
opaque JSON string — so the catch branch is unreachable in the model. -/
def createVoucherHandler (method : String) (body : VoucherBodyInput) :
    CreateResult :=
  if method ≠ "POST" then .methodNotAllowed
  else
    .success
      { accountId := body.accountId, voucherType := body.voucherType,
        date := body.date, rows := body.rows,
        totalNet := body.totalNet, totalKWD := body.totalKWD }

/-- Signed gold contribution of a voucher: `+totalNet` for an invoice,
`-totalNet` for a receipt. -/
def signedGold (v : Voucher) : ℚ :=
  match v.voucherType with
  | .INV => v.totalNet
  | .REC => -v.totalNet

/-- Signed currency contribution of a voucher. -/
def signedKWD (v : Voucher) : ℚ :=
  match v.voucherType with
  | .INV => v.totalKWD
  | .REC => -v.totalKWD

/-- Net signed gold total of a voucher list. -/
def goldSum (l : List Voucher) : ℚ :=
  (l.map signedGold).sum

/-- Net signed currency total of a voucher list. -/
def kwdSum (l : List Voucher) : ℚ :=
  (l.map signedKWD).sum

theorem goldSum_nil : goldSum [] = 0 := rfl

theorem goldSum_cons (v : Voucher) (l : List Voucher) :
    goldSum (v :: l) = signedGold v + goldSum l := by
  simp [goldSum]

theorem kwdSum_nil : kwdSum [] = 0 := rfl

theorem kwdSum_cons (v : Voucher) (l : List Voucher) :
    kwdSum (v :: l) = signedKWD v + kwdSum l := by
  simp [kwdSum]

theorem processVouchers_length (l : List Voucher) (g k : ℚ) :
    (processVouchers g k l).length = l.length := by
  induction l generalizing g k with
  | nil => rfl
  | cons v rest ih =>
    cases h : v.voucherType <;> simp [processVouchers, h, ih]

theorem processVouchers_map_date (l : List Voucher) (g k : ℚ) :
    (processVouchers g k l).map (·.date) = l.map (·.date) := by
  induction l generalizing g k with
  | nil => rfl
  | cons v rest ih =>
    cases h : v.voucherType <;> simp [processVouchers, h, ih]

theorem processVouchers_getLast (l : List Voucher) (g k : ℚ) (hne : l ≠ []) :
    ∃ e, (processVouchers g k l).getLast? = some e ∧
      e.goldBalance = g + goldSum l ∧ e.kwdBalance = k + kwdSum l := by
  induction l generalizing g k with
  | nil => exact absurd rfl hne
  | cons v rest ih =>
    by_cases hr : rest = []
    · subst hr
      cases h : v.voucherType <;>
        simp [processVouchers, h, goldSum_cons, kwdSum_cons, goldSum_nil,
          kwdSum_nil, signedGold, signedKWD, sub_eq_add_neg]
    · cases h : v.voucherType
      · obtain ⟨e, he, hg, hk⟩ := ih (g + v.totalNet) (k + v.totalKWD) hr
        refine ⟨e, ?_, ?_, ?_⟩
        · simp only [processVouchers, h]
          cases hrest2 : processVouchers (g + v.totalNet) (k + v.totalKWD) rest with
          | nil =>
            rw [hrest2] at he
            simp at he
          | cons a t =>
            rw [hrest2] at he
            rw [List.getLast?_cons_cons]
            exact he
        · rw [hg, goldSum_cons, signedGold, h]; ring
        · rw [hk, kwdSum_cons, signedKWD, h]; ring
      · obtain ⟨e, he, hg, hk⟩ := ih (g - v.totalNet) (k - v.totalKWD) hr
        refine ⟨e, ?_, ?_, ?_⟩
        · simp only [processVouchers, h]
          cases hrest2 : processVouchers (g - v.totalNet) (k - v.totalKWD) rest with
          | nil =>
            rw [hrest2] at he
            simp at he
          | cons a t =>
            rw [hrest2] at he
            rw [List.getLast?_cons_cons]
            exact he
        · rw [hg, goldSum_cons, signedGold, h]; ring
        · rw [hk, kwdSum_cons, signedKWD, h]; ring

theorem processVouchers_get (l : List Voucher) (g k : ℚ) (i : ℕ)
    (hv : i < l.length) (he : i < (processVouchers g k l).length) :
    ((processVouchers g k l).get ⟨i, he⟩).date = (l.get ⟨i, hv⟩).date ∧
    ((processVouchers g k l).get ⟨i, he⟩).voucherId = (l.get ⟨i, hv⟩).id ∧
    ((processVouchers g k l).get ⟨i, he⟩).type = (l.get ⟨i, hv⟩).voucherType ∧
    ((l.get ⟨i, hv⟩).voucherType = .INV →
      ((processVouchers g k l).get ⟨i, he⟩).goldDebit = (l.get ⟨i, hv⟩).totalNet ∧
      ((processVouchers g k l).get ⟨i, he⟩).goldCredit = 0 ∧
      ((processVouchers g k l).get ⟨i, he⟩).kwdDebit = (l.get ⟨i, hv⟩).totalKWD ∧
      ((processVouchers g k l).get ⟨i, he⟩).kwdCredit = 0) ∧
    ((l.get ⟨i, hv⟩).voucherType = .REC →
      ((processVouchers g k l).get ⟨i, he⟩).goldDebit = 0 ∧
      ((processVouchers g k l).get ⟨i, he⟩).goldCredit = (l.get ⟨i, hv⟩).totalNet ∧
      ((processVouchers g k l).get ⟨i, he⟩).kwdDebit = 0 ∧
      ((processVouchers g k l).get ⟨i, he⟩).kwdCredit = (l.get ⟨i, hv⟩).totalKWD) ∧
    ((processVouchers g k l).get ⟨i, he⟩).goldBalance = g + goldSum (l.take (i + 1)) ∧
    ((processVouchers g k l).get ⟨i, he⟩).kwdBalance = k + kwdSum (l.take (i + 1)) := by
  induction l generalizing g k i with
  | nil => exact absurd hv (by simp)
  | cons v rest ih =>
    cases i with
    | zero =>
      cases h : v.voucherType <;>
        simp [processVouchers, h, goldSum_cons, kwdSum_cons, goldSum_nil,
          kwdSum_nil, signedGold, signedKWD, sub_eq_add_neg]
    | succ n =>
      have hv' : n < rest.length := by simpa using hv
      cases h : v.voucherType
      · have he' : n < (processVouchers (g + v.totalNet) (k + v.totalKWD) rest).length := by
          rw [processVouchers_length]
          exact hv'
        have := ih (g + v.totalNet) (k + v.totalKWD) n hv' he'
        simpa [processVouchers, h, goldSum_cons, kwdSum_cons, signedGold,
          signedKWD, add_assoc] using this
      · have he' : n < (processVouchers (g - v.totalNet) (k - v.totalKWD) rest).length := by
          rw [processVouchers_length]
          exact hv'
        have := ih (g - v.totalNet) (k - v.totalKWD) n hv' he'
        simpa [processVouchers, h, goldSum_cons, kwdSum_cons, signedGold,
          signedKWD, sub_eq_add_neg, add_assoc] using this

theorem sortVouchers_perm (vs : List Voucher) : (sortVouchers vs).Perm vs :=
  List.perm_insertionSort dateLe vs

theorem sortVouchers_sorted (vs : List Voucher) :
    (sortVouchers vs).Pairwise (fun a b => a.date ≤ b.date) :=
  List.sorted_insertionSort dateLe vs

theorem sortVouchers_length (vs : List Voucher) :
    (sortVouchers vs).length = vs.length :=
  (sortVouchers_perm vs).length_eq

theorem goldSum_perm {l₁ l₂ : List Voucher} (h : l₁.Perm l₂) :
    goldSum l₁ = goldSum l₂ :=
  (h.map signedGold).sum_eq

theorem kwdSum_perm {l₁ l₂ : List Voucher} (h : l₁.Perm l₂) :
    kwdSum l₁ = kwdSum l₂ :=
  (h.map signedKWD).sum_eq

theorem goldSum_eq_filter (l : List Voucher) :
    goldSum l
      = ((l.filter (fun v => v.voucherType = VoucherType.INV)).map (·.totalNet)).sum
        - ((l.filter (fun v => v.voucherType = VoucherType.REC)).map (·.totalNet)).sum := by
  induction l with
  | nil => simp [goldSum]
  | cons v t ih =>
    cases h : v.voucherType <;>
      simp [goldSum_cons, signedGold, h, ih, List.filter_cons] <;> ring

theorem kwdSum_eq_filter (l : List Voucher) :
    kwdSum l
      = ((l.filter (fun v => v.voucherType = VoucherType.INV)).map (·.totalKWD)).sum
        - ((l.filter (fun v => v.voucherType = VoucherType.REC)).map (·.totalKWD)).sum := by
  induction l with
  | nil => simp [kwdSum]
  | cons v t ih =>
    cases h : v.voucherType <;>
      simp [kwdSum_cons, signedKWD, h, ih, List.filter_cons] <;> ring

theorem processVouchers_sorted (l : List Voucher) (g k : ℚ)
    (hl : l.Pairwise (fun a b => a.date ≤ b.date)) :
    (processVouchers g k l).Pairwise (fun a b => a.date ≤ b.date) := by
  have hmap := processVouchers_map_date l g k
  have : (l.map (·.date)).Pairwise (· ≤ ·) := by
    rw [List.pairwise_map]
    exact hl
  rw [← hmap] at this
  rw [List.pairwise_map] at this
  exact this

theorem buildLedger_sorted (vs : List Voucher) :
    (buildLedger vs).Pairwise (fun a b => a.date ≤ b.date) :=
  processVouchers_sorted _ 0 0 (sortVouchers_sorted vs)

/-- The two-voucher scenario of the spec (§8): an invoice dated day 5 with
totals (10, 50) and a receipt dated day 10 with totals (4, 20). -/
def demoVouchers : List Voucher :=
  [{ id := 1, voucherType := .INV, date := 5, totalNet := 10, totalKWD := 50,
     accountId := 1, rows := ["ring"] },
   { id := 2, voucherType := .REC, date := 10, totalNet := 4, totalKWD := 20,
     accountId := 1, rows := ["payment"] }]

/-- Default voucher used by positional `getD` access. -/
instance : Inhabited Voucher :=
  ⟨{ id := 0, voucherType := .INV, date := 0, totalNet := 0, totalKWD := 0,
     accountId := 0, rows := [] }⟩

/-- Default ledger entry used by positional `getD` access. -/
instance : Inhabited LedgerEntry :=
  ⟨{ date := 0, voucherId := 0, type := .INV, description := "",
     goldDebit := 0, goldCredit := 0, goldBalance := 0,
     kwdDebit := 0, kwdCredit := 0, kwdBalance := 0 }⟩

/-- C1: the ledger build sorts the vouchers ascending by transaction date and
traverses them with two accumulators starting at 0; each invoice adds its
totals and yields an entry whose debit fields are the totals and whose credit
fields are 0, each receipt subtracts its totals and yields an entry with the
totals in the credit fields and 0 debits; every entry records the
post-update running balances (the signed sum of the sorted list up to and
including its own voucher); and the output is chronologically ascending. -/
theorem ledger_build_correct (vs : List Voucher) :
    (buildLedger vs).length = vs.length ∧
    (∀ i, i < vs.length →
      ((buildLedger vs).getD i default).date = ((sortVouchers vs).getD i default).date ∧
      ((buildLedger vs).getD i default).voucherId = ((sortVouchers vs).getD i default).id ∧
      ((buildLedger vs).getD i default).type = ((sortVouchers vs).getD i default).voucherType ∧
      (((sortVouchers vs).getD i default).voucherType = .INV →
        ((buildLedger vs).getD i default).goldDebit = ((sortVouchers vs).getD i default).totalNet ∧
        ((buildLedger vs).getD i default).goldCredit = 0 ∧
        ((buildLedger vs).getD i default).kwdDebit = ((sortVouchers vs).getD i default).totalKWD ∧
        ((buildLedger vs).getD i default).kwdCredit = 0) ∧
      (((sortVouchers vs).getD i default).voucherType = .REC →
        ((buildLedger vs).getD i default).goldDebit = 0 ∧
        ((buildLedger vs).getD i default).goldCredit = ((sortVouchers vs).getD i default).totalNet ∧
        ((buildLedger vs).getD i default).kwdDebit = 0 ∧
        ((buildLedger vs).getD i default).kwdCredit = ((sortVouchers vs).getD i default).totalKWD) ∧
      ((buildLedger vs).getD i default).goldBalance = goldSum ((sortVouchers vs).take (i + 1)) ∧
      ((buildLedger vs).getD i default).kwdBalance = kwdSum ((sortVouchers vs).take (i + 1))) ∧
    (buildLedger vs).Pairwise (fun a b => a.date ≤ b.date) := by
  have hlen : (buildLedger vs).length = vs.length := by
    rw [buildLedger, processVouchers_length, sortVouchers_length]
  refine ⟨hlen, ?_, ?_⟩
  · intro i hi
    have hv : i < (sortVouchers vs).length := by rw [sortVouchers_length]; exact hi
    have he : i < (buildLedger vs).length := by rw [hlen]; exact hi
    have h := processVouchers_get (sortVouchers vs) 0 0 i hv he
    rw [List.getD_eq_getElem (sortVouchers vs) default hv,
      List.getD_eq_getElem (buildLedger vs) default he]
    simpa [buildLedger, zero_add, List.get_eq_getElem] using h
  · exact buildLedger_sorted vs

/-- Witness for C1 on the two-voucher scenario: the second entry of the
built ledger carries the post-update balances (6, 30) predicted by the
signed prefix sum, and the receipt debit/credit shape. -/
theorem ledger_build_correct_witness :
    ((buildLedger demoVouchers).getD 1 default).goldBalance = 6 ∧
    ((buildLedger demoVouchers).getD 1 default).kwdBalance = 30 ∧
    ((buildLedger demoVouchers).getD 1 default).goldCredit = 4 ∧
    ((buildLedger demoVouchers).getD 1 default).goldDebit = 0 := by
  have h := (ledger_build_correct demoVouchers).2.1 1 (by decide)
  have hsort : sortVouchers demoVouchers = demoVouchers := by
    norm_num [sortVouchers, List.insertionSort, List.orderedInsert, dateLe,
      demoVouchers]
  have hrec := h.2.2.2.2.1 (by rw [hsort]; rfl)
  refine ⟨?_, ?_, ?_, ?_⟩
  · rw [h.2.2.2.2.2.1, hsort]
    norm_num [goldSum, signedGold, demoVouchers]
  · rw [h.2.2.2.2.2.2, hsort]
    norm_num [kwdSum, signedKWD, demoVouchers]
  · rw [hrec.2.1, hsort]
    rfl
  · exact hrec.1

/-- C2: the final running balances of the ledger build are the invoice
totals minus the receipt totals, summed over the voucher list in any order. -/
theorem final_balance_conservation (vs : List Voucher) :
    ((buildLedger vs).getLast?).elim 0 (·.goldBalance)
      = ((vs.filter (fun v => v.voucherType = VoucherType.INV)).map (·.totalNet)).sum
        - ((vs.filter (fun v => v.voucherType = VoucherType.REC)).map (·.totalNet)).sum ∧
    ((buildLedger vs).getLast?).elim 0 (·.kwdBalance)
      = ((vs.filter (fun v => v.voucherType = VoucherType.INV)).map (·.totalKWD)).sum
        - ((vs.filter (fun v => v.voucherType = VoucherType.REC)).map (·.totalKWD)).sum := by
  by_cases hvs : sortVouchers vs = []
  · have hp := sortVouchers_perm vs
    rw [hvs] at hp
    have hnil : vs = [] := hp.symm.eq_nil
    subst hnil
    constructor <;> simp [buildLedger, sortVouchers, List.insertionSort, processVouchers]
  · obtain ⟨e, he, hg, hk⟩ := processVouchers_getLast (sortVouchers vs) 0 0 hvs
    have hgs : goldSum (sortVouchers vs) = goldSum vs := goldSum_perm (sortVouchers_perm vs)
    have hks : kwdSum (sortVouchers vs) = kwdSum vs := kwdSum_perm (sortVouchers_perm vs)
    rw [buildLedger, he]
    constructor
    · rw [Option.elim_some, hg, hgs, zero_add, ← goldSum_eq_filter]
    · rw [Option.elim_some, hk, hks, zero_add, ← kwdSum_eq_filter]

theorem recalc_inv_netWeight (row : CreateRow) :
    (recalcRow .INV row).netWeight = row.weight * row.purity / 999 := by
  by_cases hw : row.weight = 0
  · simp [recalcRow, hw]
  · by_cases hp : row.purity = 0
    · simp [recalcRow, hp]
    · simp [recalcRow, hw, hp]

theorem recalc_inv_kwd (row : CreateRow) :
    (recalcRow .INV row).kwd = row.weight * row.makingCharges.getD 0 := by
  by_cases hw : row.weight = 0
  · simp [recalcRow, hw]
  · cases hm : row.makingCharges with
    | none => simp [recalcRow, truthyOpt, hw, hm]
    | some m =>
      by_cases hm0 : m = 0
      · simp [recalcRow, truthyOpt, hw, hm, hm0]
      · simp [recalcRow, truthyOpt, hw, hm, hm0]

/-- The invoice row of the spec's worked example: weight 10, purity 916,
making-charge rate 2. -/
def demoInvoiceRow : CreateRow :=
  { description := "ring", weight := 10, purity := 916, makingCharges := some 2,
    discountPercent := none, netWeight := 0, weightAfterDiscount := none,
    kwd := 0 }

/-- C5: invoice row arithmetic — the recalculated net weight is
`weight * purity / 999` (hence 0 whenever weight or purity is 0/unset, a
zero purity being accepted, not an error) and the recalculated currency
amount is `weight * makingChargeRate` (0 when either operand is absent);
on the worked example (10, 916, 2) this gives 9160/999 and 20. -/
theorem invoice_row_arithmetic :
    (∀ row : CreateRow, (recalcRow .INV row).netWeight = row.weight * row.purity / 999) ∧
    (∀ row : CreateRow, (recalcRow .INV row).kwd = row.weight * row.makingCharges.getD 0) ∧
    (∀ row : CreateRow, (recalcRow .INV { row with purity := 0 }).netWeight = 0) ∧
    (recalcRow .INV demoInvoiceRow).netWeight = 9160 / 999 ∧
    (recalcRow .INV demoInvoiceRow).kwd = 20 := by
  refine ⟨recalc_inv_netWeight, recalc_inv_kwd, ?_, ?_, ?_⟩
  · intro row
    rw [recalc_inv_netWeight]
    simp
  · rw [recalc_inv_netWeight]
    norm_num [demoInvoiceRow]
  · rw [recalc_inv_kwd]
    norm_num [demoInvoiceRow]

/-- A receipt row whose discount percent was never entered. -/
def demoReceiptRowNoDiscount : CreateRow :=
  { description := "scrap", weight := 10, purity := 999, makingCharges := none,
    discountPercent := none, netWeight := 0, weightAfterDiscount := none,
    kwd := 7 }

/-- Counterexample to C6: on a receipt row with weight 10 and an *unset*
discount percent, the recalculation yields `weightAfterDiscount = 0`, not
`weightAfterDiscount = weight` — an unset discount percent is not treated
as "0% discount, no reduction". -/
theorem receipt_row_unset_discount_counterexample :
    demoReceiptRowNoDiscount.discountPercent = none ∧
    demoReceiptRowNoDiscount.weight = 10 ∧
    (recalcRow .REC demoReceiptRowNoDiscount).weightAfterDiscount = some 0 ∧
    (recalcRow .REC demoReceiptRowNoDiscount).weightAfterDiscount
      ≠ some demoReceiptRowNoDiscount.weight := by
  refine ⟨rfl, rfl, rfl, ?_⟩
  intro h
  rw [show (recalcRow .REC demoReceiptRowNoDiscount).weightAfterDiscount
        = some 0 from rfl] at h
  simp only [Option.some.injEq] at h
  norm_num [demoReceiptRowNoDiscount] at h

theorem recalc_rec_wad (row : CreateRow) :
    (recalcRow .REC row).weightAfterDiscount =
      some (match row.discountPercent with
            | none => 0
            | some d => row.weight * (1 - d / 100)) := by
  cases hd : row.discountPercent with
  | none => simp [recalcRow, hd]
  | some d =>
    by_cases hw : row.weight = 0
    · simp [recalcRow, hd, hw]
    · simp [recalcRow, hd, hw]

theorem guard_mul_div (w p : ℚ) :
    (if w ≠ 0 ∧ p ≠ 0 then w * p / 999 else 0) = w * p / 999 := by
  by_cases hw : w = 0
  · simp [hw]
  · by_cases hp : p = 0
    · simp [hp]
    · simp [hw, hp]

/-- C6 (amended): receipt row arithmetic — `weightAfterDiscount` is
`weight * (1 - discountPercent / 100)` when a discount percent is present
(an explicit 0 meaning no reduction) and 0 when the discount percent is
unset or the weight is absent; the net weight is
`weightAfterDiscount * purity / 999`; and the currency amount is never
derived — it passes through exactly as entered. -/
theorem receipt_row_arithmetic :
    (∀ row : CreateRow, (recalcRow .REC row).weightAfterDiscount =
       some (match row.discountPercent with
             | none => 0
             | some d => row.weight * (1 - d / 100))) ∧
    (∀ row : CreateRow, (recalcRow .REC row).netWeight =
       ((recalcRow .REC row).weightAfterDiscount.getD 0) * row.purity / 999) ∧
    (∀ row : CreateRow, (recalcRow .REC row).kwd = row.kwd) := by
  refine ⟨recalc_rec_wad, ?_, fun row => rfl⟩
  intro row
  show (if _ ∧ _ then _ else _)
      = ((recalcRow .REC row).weightAfterDiscount.getD 0) * row.purity / 999
  rw [show (recalcRow .REC row).weightAfterDiscount
        = some (if row.weight ≠ 0 ∧ row.discountPercent ≠ none then
            row.weight * (1 - row.discountPercent.getD 0 / 100) else 0) from rfl]
  rw [Option.getD_some]
  exact guard_mul_div _ _

/-- A malformed create-voucher request: the single row is missing both its
description and its weight, and the voucher type string is not one of the
two recognized values. -/
def badVoucherBody : VoucherBodyInput :=
  { accountId := 1, voucherType := "PAYMENT",
    rows := [{ description := none, weight := none, purity := none,
               makingCharges := none, discountPercent := none,
               netWeight := none, kwd := none }],
    totalNet := 0, totalKWD := 0, date := 1 }

/-- Counterexample to C8: a POST whose row is missing the required
description and weight fields AND whose voucherType is unrecognized does
not fail with a validation error — the handler stores it verbatim and
reports success. -/
theorem voucher_create_accepts_malformed :
    createVoucherHandler "POST" badVoucherBody
      = CreateResult.success
          { accountId := 1, voucherType := "PAYMENT", date := 1,
            rows := [{ description := none, weight := none, purity := none,
                       makingCharges := none, discountPercent := none,
                       netWeight := none, kwd := none }],
            totalNet := 0, totalKWD := 0 } := by
  rfl

/-- C8 (amended): voucher creation performs no input validation — every
POST body is accepted and stored exactly as received (missing row fields
and unrecognized voucher types included, and a zero purity in particular
is not an error); the only rejection the handler makes is of non-POST
methods. -/
theorem voucher_create_no_validation :
    (∀ body : VoucherBodyInput, createVoucherHandler "POST" body
       = CreateResult.success
           { accountId := body.accountId, voucherType := body.voucherType,
             date := body.date, rows := body.rows,
             totalNet := body.totalNet, totalKWD := body.totalKWD }) ∧
    (∀ (method : String) (body : VoucherBodyInput), method ≠ "POST" →
       createVoucherHandler method body = CreateResult.methodNotAllowed) := by
  constructor
  · intro body
    simp [createVoucherHandler]
  · intro method body hm
    simp [createVoucherHandler, hm]

/-- Witness for C8 (amended) at concrete inputs: a GET is rejected, a POST
of the malformed body is stored as-is. -/
theorem voucher_create_no_validation_witness :
    createVoucherHandler "GET" badVoucherBody = CreateResult.methodNotAllowed ∧
    createVoucherHandler "POST" badVoucherBody
      = CreateResult.success
          { accountId := badVoucherBody.accountId,
            voucherType := badVoucherBody.voucherType,
            date := badVoucherBody.date, rows := badVoucherBody.rows,
            totalNet := badVoucherBody.totalNet,
            totalKWD := badVoucherBody.totalKWD } :=
  ⟨voucher_create_no_validation.2 "GET" badVoucherBody (by decide),
   voucher_create_no_validation.1 badVoucherBody⟩

theorem processVouchersFull_eq_filter (cs : List Customer)
    (l : List Voucher) (g k : ℚ) :
    processVouchersFull cs g k l
      = processVouchers g k
          (l.filter (fun v => (lookupCustomer cs v.accountId).isSome)) := by
  induction l generalizing g k with
  | nil => rfl
  | cons v rest ih =>
    cases hc : lookupCustomer cs v.accountId with
    | none =>
      simp only [processVouchersFull, hc, List.filter_cons, hc,
        Option.isSome_none, Bool.false_eq_true, if_false]
      exact ih g k
    | some c =>
      cases ht : v.voucherType <;>
        simp only [processVouchersFull, hc, ht, List.filter_cons,
          Option.isSome_some, if_true, processVouchers] <;>
        rw [ih]

/-- C9: when building the system-wide ledger, a voucher whose `accountId`
matches no known customer is skipped — the build equals the plain ledger
traversal of only the vouchers with a known customer (so the dangling
voucher emits no entry and its totals never touch the running balances),
the build is total (it never aborts), and every remaining voucher still
produces its entry (one entry per known voucher). -/
theorem full_ledger_skips_unknown (cs : List Customer) (vs : List Voucher) :
    buildFullLedger cs vs
      = processVouchers 0 0
          ((sortVouchers vs).filter (fun v => (lookupCustomer cs v.accountId).isSome)) ∧
    (buildFullLedger cs vs).length
      = ((sortVouchers vs).filter (fun v => (lookupCustomer cs v.accountId).isSome)).length := by
  have h := processVouchersFull_eq_filter cs (sortVouchers vs) 0 0
  refine ⟨h, ?_⟩
  rw [buildFullLedger, h, processVouchers_length]

theorem cons_getLast?_or {α : Type} (a : α) (l : List α) :
    (a :: l).getLast? = l.getLast?.or (some a) := by
  rw [show a :: l = [a] ++ l from rfl, List.getLast?_append]
  rfl

theorem reverse_find_eq_getLast_filter {α : Type} (p : α → Bool) (l : List α) :
    l.reverse.find? p = (l.filter p).getLast? := by
  induction l with
  | nil => rfl
  | cons a t ih =>
    rw [List.reverse_cons, List.find?_append, ih, List.filter_cons]
    by_cases hp : p a
    · rw [if_pos hp, cons_getLast?_or]
      simp [List.find?, hp]
    · rw [if_neg hp]
      simp only [List.find?, Bool.not_eq_true] at *
      rw [show p a = false from by simpa using hp]
      simp

/-- The balance pair carried by a ledger entry. -/
def entryBal (e : LedgerEntry) : ℚ × ℚ :=
  (e.goldBalance, e.kwdBalance)

theorem opening_eq_filter_getLast (all : List LedgerEntry) (s : ℕ) :
    calculateOpeningBalance all (some s)
      = ((all.filter (fun e => decide (e.date < s))).getLast?).elim (0, 0) entryBal := by
  rw [calculateOpeningBalance]
  by_cases hall : all.isEmpty
  · rw [if_pos hall]
    rw [List.isEmpty_iff] at hall
    subst hall
    rfl
  · rw [if_neg hall, reverse_find_eq_getLast_filter]
    cases (all.filter (fun e => decide (e.date < s))).getLast? with
    | none => rfl
    | some e => rfl

theorem closing_eq_elim (all : List LedgerEntry) (rangeStart rangeEnd : Option ℕ) :
    calculateClosingBalance all rangeStart rangeEnd
      = ((filterEntries all rangeStart rangeEnd).getLast?).elim
          (calculateOpeningBalance all rangeStart) entryBal := by
  rw [calculateClosingBalance]
  cases (filterEntries all rangeStart rangeEnd).getLast? with
  | none => rfl
  | some e => rfl

theorem pairwise_filter_split (l : List LedgerEntry)
    (hs : l.Pairwise (fun a b => a.date ≤ b.date)) (p : ℕ → Bool)
    (hp : ∀ d d', d ≤ d' → p d' = true → p d = true) :
    l.filter (fun e => p e.date) ++ l.filter (fun e => !(p e.date)) = l := by
  induction l with
  | nil => rfl
  | cons a t ih =>
    rw [List.pairwise_cons] at hs
    obtain ⟨ha, ht⟩ := hs
    by_cases hpa : p a.date = true
    · rw [List.filter_cons, if_pos hpa, List.filter_cons,
        if_neg (by simp [hpa]), List.cons_append, ih ht]
    · have hnone : ∀ x ∈ t, ¬ p x.date = true :=
        fun x hx hpx => hpa (hp _ _ (ha x hx) hpx)
      rw [List.filter_cons, if_neg hpa, List.filter_cons,
        if_pos (by simp [hpa]), List.filter_eq_nil_iff.mpr hnone,
        List.nil_append, List.filter_eq_self.mpr ?rest]
      case rest =>
        intro x hx
        simp [hnone x hx]

/-- Bool test of the lower range bound. -/
def startOk (rangeStart : Option ℕ) (d : ℕ) : Bool :=
  match rangeStart with
  | none => true
  | some s => decide (s ≤ d)

/-- Bool test of the upper range bound. -/
def endOk (rangeEnd : Option ℕ) (d : ℕ) : Bool :=
  match rangeEnd with
  | none => true
  | some t => decide (d ≤ t)

theorem inDateRange_eq (rangeStart rangeEnd : Option ℕ) (d : ℕ) :
    inDateRange rangeStart rangeEnd d = (startOk rangeStart d && endOk rangeEnd d) := by
  cases rangeStart <;> cases rangeEnd <;> rfl

theorem inDateRange_iff (rangeStart rangeEnd : Option ℕ) (d : ℕ) :
    inDateRange rangeStart rangeEnd d = true ↔
      (∀ s, rangeStart = some s → s ≤ d) ∧ (∀ t, rangeEnd = some t → d ≤ t) := by
  cases rangeStart <;> cases rangeEnd <;> simp [inDateRange]

theorem endOk_downward (rangeEnd : Option ℕ) :
    ∀ d d', d ≤ d' → endOk rangeEnd d' = true → endOk rangeEnd d = true := by
  intro d d' hdd h
  cases rangeEnd with
  | none => rfl
  | some t =>
    simp only [endOk, decide_eq_true_eq] at h ⊢
    omega

/-- C3: for a chronologically ordered entry list and optional bounds, the
report's opening balance is the running balance of the last entry strictly
before `rangeStart` ((0,0) when none exists or `rangeStart` is unset); the
filtered entries are exactly the entries whose date lies within the bounds
(an unset bound being unbounded on that side), in ascending order (an
order-preserving sublist of the input); the closing balance is the last
filtered entry's running balance, or the opening balance when the filtered
range is empty; and on the empty entry list everything is (0,0) and empty. -/
theorem bounded_report_correct (all : List LedgerEntry)
    (rangeStart rangeEnd : Option ℕ)
    (hs : all.Pairwise (fun a b => a.date ≤ b.date)) :
    (∀ s, rangeStart = some s →
      (boundedReport all rangeStart rangeEnd).opening
        = ((all.filter (fun e => decide (e.date < s))).getLast?).elim (0, 0) entryBal) ∧
    (rangeStart = none → (boundedReport all rangeStart rangeEnd).opening = (0, 0)) ∧
    (∀ e, e ∈ (boundedReport all rangeStart rangeEnd).entries ↔
      e ∈ all ∧ (∀ s, rangeStart = some s → s ≤ e.date) ∧
        (∀ t, rangeEnd = some t → e.date ≤ t)) ∧
    ((boundedReport all rangeStart rangeEnd).entries).Sublist all ∧
    ((boundedReport all rangeStart rangeEnd).entries).Pairwise
      (fun a b => a.date ≤ b.date) ∧
    ((boundedReport all rangeStart rangeEnd).entries = [] →
      (boundedReport all rangeStart rangeEnd).closing
        = (boundedReport all rangeStart rangeEnd).opening) ∧
    (∀ e, ((boundedReport all rangeStart rangeEnd).entries).getLast? = some e →
      (boundedReport all rangeStart rangeEnd).closing = (e.goldBalance, e.kwdBalance)) ∧
    (all = [] →
      (boundedReport all rangeStart rangeEnd).opening = (0, 0) ∧
      (boundedReport all rangeStart rangeEnd).entries = [] ∧
      (boundedReport all rangeStart rangeEnd).closing = (0, 0)) := by
  refine ⟨?_, ?_, ?_, ?_, ?_, ?_, ?_, ?_⟩
  · intro s hseq
    rw [show (boundedReport all rangeStart rangeEnd).opening
          = calculateOpeningBalance all rangeStart from rfl, hseq]
    exact opening_eq_filter_getLast all s
  · intro hnone
    rw [show (boundedReport all rangeStart rangeEnd).opening
          = calculateOpeningBalance all rangeStart from rfl, hnone]
    rfl
  · intro e
    rw [show (boundedReport all rangeStart rangeEnd).entries
          = filterEntries all rangeStart rangeEnd from rfl]
    rw [filterEntries, List.mem_filter, inDateRange_iff]
  · exact List.filter_sublist all
  · exact List.Pairwise.sublist (List.filter_sublist all) hs
  · intro hempty
    have hempty2 : filterEntries all rangeStart rangeEnd = [] := hempty
    rw [show (boundedReport all rangeStart rangeEnd).closing
          = calculateClosingBalance all rangeStart rangeEnd from rfl,
      closing_eq_elim, hempty2]
    rfl
  · intro e he
    have he2 : (filterEntries all rangeStart rangeEnd).getLast? = some e := he
    rw [show (boundedReport all rangeStart rangeEnd).closing
          = calculateClosingBalance all rangeStart rangeEnd from rfl,
      closing_eq_elim, he2]
    rfl
  · intro hall
    subst hall
    refine ⟨?_, rfl, ?_⟩
    · cases rangeStart <;> rfl
    · rw [show (boundedReport ([] : List LedgerEntry) rangeStart rangeEnd).closing
            = calculateClosingBalance [] rangeStart rangeEnd from rfl,
        closing_eq_elim]
      cases rangeStart <;> rfl

/-- Witness for C3 on the built demo ledger with the spec's range
[8, 31]: the opening balance is the first entry's snapshot (10, 50), the
filtered range holds exactly the receipt entry, and the closing balance is
(6, 30). -/
theorem bounded_report_correct_witness :
    (boundedReport (buildLedger demoVouchers) (some 8) (some 31)).opening
        = (10, 50) ∧
    (boundedReport (buildLedger demoVouchers) (some 8) (some 31)).closing
        = (6, 30) := by
  have hs := buildLedger_sorted demoVouchers
  have h := bounded_report_correct (buildLedger demoVouchers) (some 8) (some 31) hs
  constructor
  · rw [h.1 8 rfl]
    norm_num [buildLedger, processVouchers, sortVouchers, List.insertionSort,
      List.orderedInsert, dateLe, demoVouchers, List.filter, entryBal]
  · have hlast := h.2.2.2.2.2.2.1
    rw [hlast (((buildLedger demoVouchers).getD 1 default)) ?_]
    · norm_num [buildLedger, processVouchers, sortVouchers, List.insertionSort,
        List.orderedInsert, dateLe, demoVouchers]
    · norm_num [boundedReport, filterEntries, inDateRange, buildLedger,
        processVouchers, sortVouchers, List.insertionSort, List.orderedInsert,
        dateLe, demoVouchers, List.filter]

/-- C4: adjacent period reconciliation — for a chronologically ordered
entry list and adjacent ranges `[A,B]` and `(B,C]` (the latter starting at
day `B+1`), the closing balance reported for the first range equals the
opening balance reported for the second, because both are slices of the
same global running-balance timeline. -/
theorem period_reconciliation (all : List LedgerEntry)
    (hs : all.Pairwise (fun a b => a.date ≤ b.date)) (A B : ℕ) (hAB : A ≤ B) :
    calculateClosingBalance all (some A) (some B)
      = calculateOpeningBalance all (some (B + 1)) := by
  rw [opening_eq_filter_getLast]
  have hconv : all.filter (fun e => decide (e.date < B + 1))
      = all.filter (fun e => decide (e.date ≤ B)) :=
    List.filter_congr (fun x _ => by simp [Nat.lt_succ_iff])
  rw [hconv]
  set L := all.filter (fun e => decide (e.date ≤ B)) with hL
  have hsL : L.Pairwise (fun a b => a.date ≤ b.date) :=
    List.Pairwise.sublist (List.filter_sublist all) hs
  have hsplit := pairwise_filter_split L hsL (fun d => decide (d < A))
    (fun d d' hdd h => by
      simp only [decide_eq_true_eq] at h ⊢
      omega)
  have h1 : L.filter (fun e => decide (e.date < A))
      = all.filter (fun e => decide (e.date < A)) := by
    rw [hL, List.filter_filter]
    exact List.filter_congr (fun x _ => by
      by_cases hx : x.date < A
      · have hxB : x.date ≤ B := by omega
        simp [hx, hxB]
      · simp [hx])
  have h2 : L.filter (fun e => !(decide (e.date < A)))
      = filterEntries all (some A) (some B) := by
    rw [hL, List.filter_filter, filterEntries]
    refine List.filter_congr (fun x _ => ?_)
    rw [show inDateRange (some A) (some B) x.date
          = (decide (A ≤ x.date) && decide (x.date ≤ B)) from rfl]
    congr 1
    rw [← decide_not, decide_eq_decide]
    exact Nat.not_lt
  rw [closing_eq_elim, ← hsplit, List.getLast?_append, h1, h2]
  cases hF : (filterEntries all (some A) (some B)).getLast? with
  | some e => simp [Option.or_some]
  | none =>
    rw [Option.none_or, Option.elim_none, opening_eq_filter_getLast]

/-- Witness for C4 on the built demo ledger: splitting at day 7, the
closing balance of [1,7] and the opening balance of the range starting at
day 8 agree (both are (10, 50)). -/
theorem period_reconciliation_witness :
    calculateClosingBalance (buildLedger demoVouchers) (some 1) (some 7)
      = calculateOpeningBalance (buildLedger demoVouchers) (some (7 + 1)) ∧
    calculateClosingBalance (buildLedger demoVouchers) (some 1) (some 7)
      = (10, 50) := by
  have hs := buildLedger_sorted demoVouchers
  refine ⟨period_reconciliation _ hs 1 7 (by norm_num), ?_⟩
  norm_num [calculateClosingBalance, calculateOpeningBalance, filterEntries,
    inDateRange, buildLedger, processVouchers, sortVouchers,
    List.insertionSort, List.orderedInsert, dateLe, demoVouchers,
    List.filter, List.find?]

/-- The running-balance chain condition: each entry's balances are the
previous balances plus its debit minus its credit. -/
def balancedFrom : ℚ → ℚ → List LedgerEntry → Prop
  | _, _, [] => True
  | g, k, e :: rest =>
    e.goldBalance = g + e.goldDebit - e.goldCredit ∧
    e.kwdBalance = k + e.kwdDebit - e.kwdCredit ∧
    balancedFrom e.goldBalance e.kwdBalance rest

theorem balanced_processVouchers (l : List Voucher) (g k : ℚ) :
    balancedFrom g k (processVouchers g k l) := by
  induction l generalizing g k with
  | nil => trivial
  | cons v rest ih =>
    cases h : v.voucherType <;>
      simp only [processVouchers, h] <;>
      exact ⟨by ring, by ring, ih _ _⟩

theorem cons_getLast?_elim {α β : Type} (e : α) (l : List α) (a : β) (f : α → β) :
    ((e :: l).getLast?).elim a f = (l.getLast?).elim (f e) f := by
  cases l with
  | nil => rfl
  | cons b t =>
    rw [List.getLast?_cons_cons]
    cases h : (b :: t).getLast? with
    | none =>
      rw [List.getLast?_eq_none_iff] at h
      exact absurd h (by simp)
    | some x => rfl

theorem balanced_append (l₁ l₂ : List LedgerEntry) (g k : ℚ)
    (h : balancedFrom g k (l₁ ++ l₂)) :
    balancedFrom g k l₁ ∧
    balancedFrom ((l₁.getLast?).elim g (·.goldBalance))
      ((l₁.getLast?).elim k (·.kwdBalance)) l₂ := by
  induction l₁ generalizing g k with
  | nil => exact ⟨trivial, h⟩
  | cons e t ih =>
    obtain ⟨h1, h2, h3⟩ := h
    obtain ⟨ih1, ih2⟩ := ih e.goldBalance e.kwdBalance h3
    refine ⟨⟨h1, h2, ih1⟩, ?_⟩
    rw [cons_getLast?_elim, cons_getLast?_elim]
    exact ih2

theorem foldl_add_eq_sum (f : LedgerEntry → ℚ) (l : List LedgerEntry) (a : ℚ) :
    l.foldl (fun s e => s + f e) a = a + (l.map f).sum := by
  induction l generalizing a with
  | nil => simp
  | cons e t ih => simp [ih, add_assoc]

theorem totalGoldDebit_cons (e : LedgerEntry) (t : List LedgerEntry) :
    totalGoldDebit (e :: t) = e.goldDebit + totalGoldDebit t := by
  rw [totalGoldDebit, totalGoldDebit, List.foldl_cons, foldl_add_eq_sum,
    foldl_add_eq_sum]
  ring

theorem totalGoldCredit_cons (e : LedgerEntry) (t : List LedgerEntry) :
    totalGoldCredit (e :: t) = e.goldCredit + totalGoldCredit t := by
  rw [totalGoldCredit, totalGoldCredit, List.foldl_cons, foldl_add_eq_sum,
    foldl_add_eq_sum]
  ring

theorem totalKWDDebit_cons (e : LedgerEntry) (t : List LedgerEntry) :
    totalKWDDebit (e :: t) = e.kwdDebit + totalKWDDebit t := by
  rw [totalKWDDebit, totalKWDDebit, List.foldl_cons, foldl_add_eq_sum,
    foldl_add_eq_sum]
  ring

theorem totalKWDCredit_cons (e : LedgerEntry) (t : List LedgerEntry) :
    totalKWDCredit (e :: t) = e.kwdCredit + totalKWDCredit t := by
  rw [totalKWDCredit, totalKWDCredit, List.foldl_cons, foldl_add_eq_sum,
    foldl_add_eq_sum]
  ring

theorem balanced_sum (l : List LedgerEntry) (g k : ℚ)
    (h : balancedFrom g k l) :
    totalGoldDebit l - totalGoldCredit l
      = (l.getLast?).elim g (·.goldBalance) - g ∧
    totalKWDDebit l - totalKWDCredit l
      = (l.getLast?).elim k (·.kwdBalance) - k := by
  induction l generalizing g k with
  | nil =>
    simp [totalGoldDebit, totalGoldCredit, totalKWDDebit, totalKWDCredit]
  | cons e t ih =>
    obtain ⟨h1, h2, h3⟩ := h
    obtain ⟨ihg, ihk⟩ := ih e.goldBalance e.kwdBalance h3
    constructor
    · rw [totalGoldDebit_cons, totalGoldCredit_cons, cons_getLast?_elim]
      linarith [ihg]
    · rw [totalKWDDebit_cons, totalKWDCredit_cons, cons_getLast?_elim]
      linarith [ihk]

theorem elim_entryBal_fst (o : Option LedgerEntry) :
    (o.elim ((0 : ℚ), (0 : ℚ)) entryBal).1 = o.elim 0 (·.goldBalance) := by
  cases o <;> rfl

theorem elim_entryBal_snd (o : Option LedgerEntry) :
    (o.elim ((0 : ℚ), (0 : ℚ)) entryBal).2 = o.elim 0 (·.kwdBalance) := by
  cases o <;> rfl

theorem startOk_or_lt (rangeStart : Option ℕ) (x : LedgerEntry) :
    (match rangeStart with
     | none => (true : Bool)
     | some s => decide (s ≤ x.date)) = startOk rangeStart x.date := rfl

/-- The period-totals identity over any sorted, balance-chained entry list:
the filtered debit total minus credit total equals the closing minus the
opening balance of the range, in both units. -/
theorem period_totals_general (all : List LedgerEntry)
    (hs : all.Pairwise (fun a b => a.date ≤ b.date))
    (hb : balancedFrom 0 0 all) (rangeStart rangeEnd : Option ℕ) :
    totalGoldDebit (filterEntries all rangeStart rangeEnd)
      - totalGoldCredit (filterEntries all rangeStart rangeEnd)
      = (calculateClosingBalance all rangeStart rangeEnd).1
        - (calculateOpeningBalance all rangeStart).1 ∧
    totalKWDDebit (filterEntries all rangeStart rangeEnd)
      - totalKWDCredit (filterEntries all rangeStart rangeEnd)
      = (calculateClosingBalance all rangeStart rangeEnd).2
        - (calculateOpeningBalance all rangeStart).2 := by
  cases rangeStart with
  | none =>
    -- no lower bound: the filtered range is a prefix of the timeline and
    -- the opening balance is (0, 0)
    have hF : filterEntries all none rangeEnd
        = all.filter (fun e => endOk rangeEnd e.date) := by
      rw [filterEntries]
      exact List.filter_congr (fun x _ => by
        rw [inDateRange_eq]
        rfl)
    have hsplit := pairwise_filter_split all hs
      (fun d => endOk rangeEnd d) (endOk_downward rangeEnd)
    have hb2 : balancedFrom 0 0
        (all.filter (fun e => endOk rangeEnd e.date) ++
         all.filter (fun e => !(endOk rangeEnd e.date))) := by
      rw [hsplit]
      exact hb
    have hbF := (balanced_append _ _ 0 0 hb2).1
    have hsum := balanced_sum _ 0 0 hbF
    rw [closing_eq_elim, hF]
    cases hlast : (all.filter (fun e => endOk rangeEnd e.date)).getLast? with
    | none =>
      have hnil : all.filter (fun e => endOk rangeEnd e.date) = [] :=
        List.getLast?_eq_none_iff.mp hlast
      rw [hnil]
      simp [totalGoldDebit, totalGoldCredit, totalKWDDebit, totalKWDCredit,
        calculateOpeningBalance]
    | some e =>
      rw [hlast] at hsum
      simpa [calculateOpeningBalance, entryBal] using hsum
  | some s =>
    -- lower bound s: split the timeline into the entries before s, the
    -- in-range entries, and the rest
    have hsplitP := pairwise_filter_split all hs
      (fun d => decide (d < s))
      (fun d d' hdd h => by
        simp only [decide_eq_true_eq] at h ⊢
        omega)
    set P := all.filter (fun e => decide (e.date < s)) with hP
    set Q := all.filter (fun e => !(decide (e.date < s))) with hQ
    have hsQ : Q.Pairwise (fun a b => a.date ≤ b.date) :=
      List.Pairwise.sublist (List.filter_sublist all) hs
    have hsplitQ := pairwise_filter_split Q hsQ
      (fun d => endOk rangeEnd d) (endOk_downward rangeEnd)
    have hFQ : Q.filter (fun e => endOk rangeEnd e.date)
        = filterEntries all (some s) rangeEnd := by
      rw [hQ, List.filter_filter, filterEntries]
      refine List.filter_congr (fun x _ => ?_)
      rw [inDateRange_eq]
      rw [show startOk (some s) x.date = decide (s ≤ x.date) from rfl]
      rw [Bool.and_comm]
      congr 1
      rw [← decide_not, decide_eq_decide]
      exact Nat.not_lt
    -- the balance chain across P then the filtered range
    have hball : balancedFrom 0 0 (P ++ Q) := by
      rw [hsplitP]
      exact hb
    obtain ⟨hbP, hbQ⟩ := balanced_append P Q 0 0 hball
    have hbQ2 : balancedFrom ((P.getLast?).elim 0 (·.goldBalance))
        ((P.getLast?).elim 0 (·.kwdBalance))
        (Q.filter (fun e => endOk rangeEnd e.date) ++
         Q.filter (fun e => !(endOk rangeEnd e.date))) := by
      rw [hsplitQ]
      exact hbQ
    have hbF := (balanced_append _ _ _ _ hbQ2).1
    have hsum := balanced_sum _ _ _ hbF
    rw [hFQ] at hsum
    have hopen : calculateOpeningBalance all (some s)
        = (P.getLast?).elim (0, 0) entryBal := opening_eq_filter_getLast all s
    rw [closing_eq_elim, hopen]
    rw [elim_entryBal_fst, elim_entryBal_snd]
    cases hlast : (filterEntries all (some s) rangeEnd).getLast? with
    | none =>
      rw [hlast] at hsum
      simp only [Option.elim_none] at hsum ⊢
      rw [elim_entryBal_fst, elim_entryBal_snd]
      exact ⟨by linarith [hsum.1], by linarith [hsum.2]⟩
    | some e =>
      rw [hlast] at hsum
      simp only [Option.elim_some] at hsum ⊢
      exact ⟨by simpa [entryBal] using hsum.1, by simpa [entryBal] using hsum.2⟩

/-- C10: on any ledger produced by the build (so its entries carry the
global running balances) and any date range, the displayed period totals
(filtered gold debits minus gold credits, and likewise for the currency
fields) equal the period change — the closing balance minus the opening
balance of that range. -/
theorem period_totals_reconcile (vs : List Voucher)
    (rangeStart rangeEnd : Option ℕ) :
    totalGoldDebit (filterEntries (buildLedger vs) rangeStart rangeEnd)
      - totalGoldCredit (filterEntries (buildLedger vs) rangeStart rangeEnd)
      = (calculateClosingBalance (buildLedger vs) rangeStart rangeEnd).1
        - (calculateOpeningBalance (buildLedger vs) rangeStart).1 ∧
    totalKWDDebit (filterEntries (buildLedger vs) rangeStart rangeEnd)
      - totalKWDCredit (filterEntries (buildLedger vs) rangeStart rangeEnd)
      = (calculateClosingBalance (buildLedger vs) rangeStart rangeEnd).2
        - (calculateOpeningBalance (buildLedger vs) rangeStart).2 :=
  period_totals_general (buildLedger vs) (buildLedger_sorted vs)
    (balanced_processVouchers (sortVouchers vs) 0 0) rangeStart rangeEnd

theorem accumulateBalances_eq (l : List Voucher) (g k : ℚ) :
    accumulateBalances (g, k) l = (g + goldSum l, k + kwdSum l) := by
  induction l generalizing g k with
  | nil => simp [accumulateBalances, goldSum, kwdSum]
  | cons v rest ih =>
    cases h : v.voucherType <;>
      simp only [accumulateBalances, h, ih, goldSum_cons, kwdSum_cons,
        signedGold, signedKWD] <;>
      exact Prod.ext (by ring) (by ring)

instance : LeftCommutative (max : ℕ → ℕ → ℕ) :=
  ⟨fun a b c => max_left_comm a b c⟩

theorem foldr_max_eq_getLast (l : List ℕ) (hl : l.Pairwise (· ≤ ·)) :
    ∀ hne : l ≠ [], l.foldr max 0 = l.getLast hne := by
  induction l with
  | nil => intro h; exact absurd rfl h
  | cons a t ih =>
    intro hne
    cases t with
    | nil => simp [List.getLast]
    | cons b t2 =>
      rw [List.pairwise_cons] at hl
      obtain ⟨ha, ht⟩ := hl
      have h2 : (b :: t2) ≠ [] := by simp
      rw [List.foldr_cons, ih ht h2, List.getLast_cons h2]
      exact max_eq_right (ha _ (List.getLast_mem h2))

theorem maxVoucherDate_eq_sorted_getLast (vs : List Voucher)
    (hne : sortVouchers vs ≠ []) :
    maxVoucherDate vs = ((sortVouchers vs).getLast hne).date := by
  have hperm : ((sortVouchers vs).map (·.date)).Perm (vs.map (·.date)) :=
    (sortVouchers_perm vs).map _
  have hmapne : (sortVouchers vs).map (·.date) ≠ [] := by
    simpa using hne
  have hsorted : ((sortVouchers vs).map (·.date)).Pairwise (· ≤ ·) := by
    rw [List.pairwise_map]
    exact sortVouchers_sorted vs
  rw [maxVoucherDate, ← hperm.foldr_eq 0,
    foldr_max_eq_getLast _ hsorted hmapne, List.getLast_map]

/-- C7: the per-customer balance summary computed by the aggregation loop
of the balances page refines the Ledger-Engine phrasing of the contract —
on an empty voucher list it is balances (0,0), count 0 and no last
activity (never an error), and otherwise it carries exactly the last
`buildLedger` entry's running balances, the voucher count, and the maximum
voucher date. -/
theorem summarize_refines_ledger (vs : List Voucher) :
    summarize vs = summarizeViaLedger vs := by
  by_cases hvs : vs = []
  · subst hvs
    rfl
  · have hne : ¬ vs.isEmpty = true := by
      rw [List.isEmpty_iff]
      exact hvs
    have hsne : sortVouchers vs ≠ [] := by
      intro h
      apply hvs
      have hp := sortVouchers_perm vs
      rw [h] at hp
      exact hp.symm.eq_nil
    obtain ⟨e, he, hg, hk⟩ := processVouchers_getLast (sortVouchers vs) 0 0 hsne
    rw [summarize, summarizeViaLedger, if_neg hne, if_neg hne]
    rw [CustomerBalance.mk.injEq]
    refine ⟨?_, ?_, ?_, rfl⟩
    · rw [accumulateBalances_eq, buildLedger, he, Option.elim_some, hg]
    · rw [accumulateBalances_eq, buildLedger, he, Option.elim_some, hk]
    · rw [List.getLast?_eq_getLast _ hsne, Option.map_some',
        maxVoucherDate_eq_sorted_getLast vs hsne]

end Accounts
